import Mathlib

/-!
Shallow embedding of the CommentTree repository (Go): materialized-path
comment store.  The repository layer (`internal/repository`) is modelled as
pure functions over a list of rows; SQL `LIKE`/`ILIKE` is modelled by an
executable pattern matcher; the service layer (`internal/service/service.go`)
and the HTTP create handler (`internal/router/handlers`) are modelled as
functions composing these.
-/

namespace CommentTree

/-- Model of `models.Comment` (internal/models).  `time.Time` is modelled as an `Int`
timestamp.  The transient `Children []*Comment` slice is modelled as
`Option (List Int)`: `none` is Go's nil slice (the JSON-absent case), and
`some l` an initialized slice holding the ids of the attached children (the
full pointer graph is recoverable from the per-parent children map). -/
structure Comment where
  id : Int
  parentID : Option Int
  pathID : String
  path : String
  comm : String
  createdAt : Int
  children : Option (List Int)
deriving Repr, DecidableEq

/-- Model of `models.CommentRequest`. -/
structure CommentRequest where
  comment : String
  parentID : Option Int
deriving Repr, DecidableEq

/-- The comments table plus the BIGSERIAL id sequence. -/
structure DB where
  rows : List Comment
  nextId : Int
deriving Repr, DecidableEq

/-- Errors surfaced by the repository layer. -/
inductive RepoError where
  | parentNotFound (pid : Int)
  | notFound
deriving Repr, DecidableEq

/-- SQL `LIKE` pattern matching on character lists: `%` matches any sequence
of characters, `_` matches exactly one character, any other pattern character
matches itself.  Structural recursion on the pattern; the `%` case tries every
suffix of the subject. -/
def likeMatch : List Char → List Char → Bool
  | [], s => s.isEmpty
  | p :: ps, s =>
    if p = '%' then s.tails.any (likeMatch ps)
    else
      match s with
      | [] => false
      | c :: ss => (if p = '_' then true else p == c) && likeMatch ps ss

/-- SQL `LIKE` on strings (case-sensitive, as used for `path LIKE $1`). -/
def likeMatchS (pat s : String) : Bool :=
  likeMatch pat.data s.data

/-- The ASCII whitespace characters trimmed by Go's `strings.TrimSpace`
(`unicode.IsSpace` restricted to ASCII, which covers all comment queries the
claims exercise). -/
def goIsSpace (c : Char) : Bool :=
  c == ' ' || c == '\t' || c == '\n' || c == '\x0b' || c == '\x0c' || c == '\r'

/-- Model of Go's `strings.TrimSpace`. -/
def trimSpace (s : String) : String :=
  ⟨((s.data.dropWhile goIsSpace).reverse.dropWhile goIsSpace).reverse⟩

/-- Go's `len` on a string: its UTF-8 byte length. -/
def byteLen (s : String) : Nat :=
  (s.data.map Char.utf8Size).sum

/-- Model of Go's `strings.ToUpper` (ASCII case mapping). -/
def toUpperStr (s : String) : String :=
  ⟨s.data.map Char.toUpper⟩

/-- Byte-wise (codepoint) string comparison, the `C`-collation order Postgres
uses for `ORDER BY path DESC` over ASCII path strings. -/
def charListLe : List Char → List Char → Bool
  | [], _ => true
  | _ :: _, [] => false
  | a :: as, b :: bs => if a = b then charListLe as bs else decide (a < b)

/-- Postgres `ILIKE`: `LIKE` after lower-casing both sides. -/
def ilikeMatch (pat s : String) : Bool :=
  likeMatch (pat.data.map Char.toLower) (s.data.map Char.toLower)

/-- Relation of `ORDER BY created_at DESC`: newest first. -/
def createdDesc (a b : Comment) : Prop :=
  b.createdAt ≤ a.createdAt

instance : DecidableRel createdDesc := fun a b =>
  Int.decLe b.createdAt a.createdAt

instance : IsTotal Comment createdDesc :=
  ⟨fun a b => by unfold createdDesc; exact le_total b.createdAt a.createdAt⟩

instance : IsTrans Comment createdDesc :=
  ⟨fun _ _ _ h1 h2 => le_trans h2 h1⟩

namespace Repository

/-- Model of `getPathQuery`: `SELECT path FROM comments WHERE id = $1` via `QueryRow`
(first matching row, `sql.ErrNoRows` modelled as `none`). -/
def GetPathByID (rows : List Comment) (id : Int) : Option String :=
  (rows.find? (fun c => c.id == id)).map (·.path)

/-- Model of `Repository.GetByID`: `SELECT ... FROM comments WHERE id = $1`. -/
def GetByID (rows : List Comment) (id : Int) : Option Comment :=
  rows.find? (fun c => c.id == id)

/-- Model of `Repository.Create` (repository.go): when a parent id is given,
look up the parent's path (failing `parentNotFound` without touching the
table); build `newPath = parentPath + PathID + "/"` (empty parent path when
no parent id); insert the row with the DB-assigned serial id. -/
def Create (db : DB) (c : Comment) : Except RepoError (DB × Int) :=
  match c.parentID with
  | some pid =>
    match GetPathByID db.rows pid with
    | none => .error (.parentNotFound pid)
    | some parentPath =>
      let newPath := parentPath ++ c.pathID ++ "/"
      let row : Comment :=
        { id := db.nextId, parentID := c.parentID, pathID := c.pathID,
          path := newPath, comm := c.comm, createdAt := c.createdAt,
          children := none }
      .ok ({ rows := db.rows ++ [row], nextId := db.nextId + 1 }, db.nextId)
  | none =>
    let newPath := "" ++ c.pathID ++ "/"
    let row : Comment :=
      { id := db.nextId, parentID := none, pathID := c.pathID,
        path := newPath, comm := c.comm, createdAt := c.createdAt,
        children := none }
    .ok ({ rows := db.rows ++ [row], nextId := db.nextId + 1 }, db.nextId)

/-- Model of `Repository.GetChildrenByPath`: rows with `path LIKE path || '%'`,
`ORDER BY path DESC` (modelled with insertion sort). -/
def GetChildrenByPath (rows : List Comment) (path : String) : List Comment :=
  (rows.filter (fun c => likeMatchS (path ++ "%") c.path)).insertionSort
    (fun a b => charListLe b.path.data a.path.data = true)

/-- Model of `Repository.DeleteByPath`: `DELETE FROM comments WHERE path LIKE $1`
with pattern `path || '%'`. -/
def DeleteByPath (rows : List Comment) (path : String) : List Comment :=
  rows.filter (fun c => !likeMatchS (path ++ "%") c.path)

/-- The `sortBy` whitelist of `GetTopLevelComments` (part_003 lines 163-166):
only `created_at` and `id` pass, anything else becomes `created_at`. -/
def sanitizeSortBy (sortBy : String) : String :=
  if sortBy == "created_at" || sortBy == "id" then sortBy else "created_at"

/-- The `sortOrder` whitelist (part_003 lines 167-170): upper-case, then
anything other than `ASC`/`DESC` becomes `ASC`. -/
def sanitizeSortOrder (sortOrder : String) : String :=
  let u := toUpperStr sortOrder
  if u != "ASC" && u != "DESC" then "ASC" else u

/-- The SQL text built by `fmt.Sprintf` in `GetTopLevelComments`
(part_003 line 172), after sanitization. -/
def topLevelQueryString (sortBy sortOrder : String) : String :=
  "SELECT id,parent_id,path_id,path,comment,created_at FROM comments WHERE parent_id IS NULL ORDER BY "
    ++ sanitizeSortBy sortBy ++ " " ++ sanitizeSortOrder sortOrder
    ++ " LIMIT $1 OFFSET $2"

/-- The ordering relation named by the sanitized sort column/direction. -/
def topLevelOrder (sortBy sortOrder : String) (a b : Comment) : Prop :=
  let key : Comment → Int :=
    if sanitizeSortBy sortBy = "id" then (·.id) else (·.createdAt)
  if sanitizeSortOrder sortOrder = "DESC" then key b ≤ key a else key a ≤ key b

instance (sortBy sortOrder : String) :
    DecidableRel (topLevelOrder sortBy sortOrder) := by
  intro a b
  unfold topLevelOrder
  exact inferInstance

/-- Model of `Repository.GetTopLevelComments`: counts rows with `parent_id IS NULL`,
then fetches one page of them ordered by the sanitized sort key. -/
def GetTopLevelComments (rows : List Comment) (limit offset : Int)
    (sortBy sortOrder : String) : List Comment × Int :=
  let topLevel := rows.filter (fun c => c.parentID == none)
  let total : Int := topLevel.length
  let page :=
    ((topLevel.insertionSort (topLevelOrder sortBy sortOrder)).drop
      offset.toNat).take limit.toNat
  (page, total)

/-- Model of `Repository.SearchByText`: `comment ILIKE '%' || query || '%'`,
`ORDER BY created_at DESC LIMIT 50` (searchCommentsQuery, part_003 line 33);
the pattern is built by plain concatenation, with no escaping of `%`/`_`. -/
def SearchByText (rows : List Comment) (query : String) : List Comment :=
  let searchPattern := "%" ++ query ++ "%"
  ((rows.filter (fun c => ilikeMatch searchPattern c.comm)).insertionSort
    createdDesc).take 50

end Repository

/-- Model of `models.PaginatedComments`. -/
structure PaginatedComments where
  comments : List Comment
  total : Int
  page : Int
  limit : Int
deriving Repr, DecidableEq

namespace Service

/-- The children attached to the map entry of id `p` during the second pass of
`Service.GetComments` (service.go lines 77-83): every record of the flat list,
in list order, whose `ParentID` equals `p` (the parent's map entry exists
whenever `p` is an id of the list). -/
def buildChildren (l : List Comment) (p : Int) : List Int :=
  (l.filter (fun c => c.parentID == some p)).map (·.id)

/-- The tree-assembly step of `Service.GetComments` (service.go lines 66-89)
as a function of the fetched root record and the flat record list: lists of
length ≤ 1 short-circuit to the root with an explicitly empty children slice;
otherwise the id-to-record map is built (every entry's children initialized
empty then populated), and the entry of the requested id is returned when
present, the originally fetched root otherwise. -/
def assemble (id : Int) (root : Comment) (l : List Comment) : Comment :=
  if l.length ≤ 1 then { root with children := some [] }
  else
    match l.find? (fun c => c.id == id) with
    | some rootInTree =>
      { rootInTree with children := some (buildChildren l rootInTree.id) }
    | none => root

/-- Model of `Service.GetComments`: fetch the root by id (error when absent), fetch all
rows whose path extends the root's path, assemble the tree. -/
def GetComments (rows : List Comment) (id : Int) : Except RepoError Comment :=
  match Repository.GetByID rows id with
  | none => .error .notFound
  | some root =>
    .ok (assemble id root (Repository.GetChildrenByPath rows root.path))

/-- Model of `Service.CreateComment`: the freshly generated `uuid.New().String()` and
`time.Now()` are explicit arguments `pathID` / `now`; the service builds the
comment value (no path yet) and delegates to `Repository.Create`. -/
def CreateComment (db : DB) (cr : CommentRequest) (pathID : String)
    (now : Int) : Except RepoError (DB × Int) :=
  Repository.Create db
    { id := 0, parentID := cr.parentID, pathID := pathID, path := "",
      comm := cr.comment, createdAt := now, children := none }

/-- Model of `Service.DeleteComments`: fetch the root by id (error when absent), then
one prefix delete on the root's path. -/
def DeleteComments (db : DB) (id : Int) : Except RepoError DB :=
  match Repository.GetByID db.rows id with
  | none => .error .notFound
  | some rootComment =>
    .ok { db with rows := Repository.DeleteByPath db.rows rootComment.path }

/-- Model of `Service.GetAllCommentTrees` (service.go): clamp page and
limit, compute the offset, fetch a page of top-level roots plus the total,
then build each root's full tree with `GetComments`, skipping roots whose
tree assembly fails. -/
def GetAllCommentTrees (rows : List Comment) (page limit : Int)
    (sortBy sortOrder : String) : PaginatedComments :=
  let page := if page < 1 then 1 else page
  let limit := if limit < 1 || limit > 100 then 10 else limit
  let offset := (page - 1) * limit
  let fetched := Repository.GetTopLevelComments rows limit offset sortBy sortOrder
  let allTrees := fetched.1.foldl
    (fun acc rootComment =>
      match GetComments rows rootComment.id with
      | .error _ => acc
      | .ok fullTree => acc ++ [fullTree]) []
  { comments := allTrees, total := fetched.2, page := page, limit := limit }

/-- Model of `Service.SearchComments` (service.go): queries whose
whitespace-trimmed byte length is below 3 yield an empty result without an
error; otherwise the repository text search runs. -/
def SearchComments (rows : List Comment) (query : String) : List Comment :=
  if byteLen (trimSpace query) < 3 then [] else Repository.SearchByText rows query

end Service

namespace Handlers

/-- One HTTP response written by the handler: status code and message. -/
structure Response where
  status : Nat
  body : String
deriving Repr, DecidableEq

/-- Outcome of one run of the create handler: every response it wrote (in
order), the resulting database, and whether `service.CreateComment` (and hence
storage) was invoked. -/
structure CreateOutcome where
  responses : List Response
  db : DB
  serviceCalled : Bool
deriving Repr, DecidableEq

/-- Model of `CommentHandler.CreateComment` (handlers).  `body = none`
models an undecodable request body.  Faithful to the source, the negative
`ParentID` branch writes the 400 response but does not return, so control
falls through to the `service.CreateComment` call. -/
def CreateComment (db : DB) (body : Option CommentRequest) (pathID : String)
    (now : Int) : CreateOutcome :=
  match body with
  | none => ⟨[⟨400, "Invalid request body"⟩], db, false⟩
  | some commentRequest =>
    if commentRequest.comment == "" then
      ⟨[⟨400, "Comment is required"⟩], db, false⟩
    else
      let validationResponses :=
        match commentRequest.parentID with
        | some pid =>
          if pid < 0 then [⟨400, "ParentID it can't be negative"⟩] else []
        | none => []
      match Service.CreateComment db commentRequest pathID now with
      | .error _ =>
        ⟨validationResponses ++ [⟨400, "Failed to create comment"⟩], db, true⟩
      | .ok (db', _) =>
        ⟨validationResponses ++ [⟨201, "Created"⟩], db', true⟩

end Handlers

/-- Holds when the list has no SQL `LIKE` metacharacter; all paths the
repository builds (UUID segments and `/`) satisfy it. -/
def noLikeMeta (l : List Char) : Bool :=
  l.all (fun c => !(c == '%' || c == '_'))

/-- Literal (non-wildcard) containment of `q` as a contiguous substring
of `s`. -/
def containsSub (q s : List Char) : Bool :=
  s.tails.any (fun t => q.isPrefixOf t)

/-- Case-insensitive literal substring containment: `q` occurs in `text`
after lower-casing both sides. -/
def ciContainsB (text q : String) : Bool :=
  containsSub (q.data.map Char.toLower) (text.data.map Char.toLower)

/-! ### Lemmas about the `LIKE` matcher -/

lemma any_congr {α : Type} (f g : α → Bool) (l : List α)
    (h : ∀ x ∈ l, f x = g x) : l.any f = l.any g := by
  induction l with
  | nil => rfl
  | cons a l ih => simp_all

lemma likeMatch_pct (ps : List Char) (s : List Char) :
    likeMatch ('%' :: ps) s = s.tails.any (likeMatch ps) := by
  simp [likeMatch]

lemma likeMatch_lit_nil (p : Char) (ps : List Char) (h : p ≠ '%') :
    likeMatch (p :: ps) [] = false := by
  simp [likeMatch, h]

lemma likeMatch_lit_cons (p : Char) (ps : List Char) (c : Char)
    (ss : List Char) (h : p ≠ '%') :
    likeMatch (p :: ps) (c :: ss) =
      ((if p = '_' then true else p == c) && likeMatch ps ss) := by
  simp [likeMatch, h]

lemma isPrefixOf_self (l : List Char) : l.isPrefixOf l = true := by
  induction l with
  | nil => rfl
  | cons a l ih => simp [List.isPrefixOf, ih]

lemma noLikeMeta_cons {a : Char} {l : List Char}
    (h : noLikeMeta (a :: l) = true) :
    a ≠ '%' ∧ a ≠ '_' ∧ noLikeMeta l = true := by
  simp only [noLikeMeta, List.all_cons, Bool.and_eq_true, Bool.not_eq_true',
    Bool.or_eq_false_iff, beq_eq_false_iff_ne] at h
  exact ⟨h.1.1, h.1.2, by simpa [noLikeMeta] using h.2⟩

/-- For a metacharacter-free prefix `p`, the pattern `p ++ "%"` matches
exactly the strings beginning with `p`. -/
lemma likeMatch_append_pct :
    ∀ (p : List Char), noLikeMeta p = true →
      ∀ s, likeMatch (p ++ ['%']) s = p.isPrefixOf s := by
  intro p
  induction p with
  | nil =>
    intro _ s
    rw [List.nil_append, likeMatch_pct]
    have hmem : ([] : List Char) ∈ s.tails := by
      simp [List.mem_tails]
    have : s.tails.any (likeMatch []) = true :=
      List.any_eq_true.mpr ⟨[], hmem, rfl⟩
    simp [this, List.isPrefixOf]
  | cons a p ih =>
    intro h s
    obtain ⟨h1, h2, h3⟩ := noLikeMeta_cons h
    cases s with
    | nil => rw [List.cons_append, likeMatch_lit_nil _ _ h1]; rfl
    | cons c ss =>
      rw [List.cons_append, likeMatch_lit_cons _ _ _ _ h1, if_neg h2,
        ih h3 ss]
      rfl

/-- For a metacharacter-free `q`, the pattern `"%" ++ q ++ "%"` matches
exactly the strings containing `q` as a contiguous substring. -/
lemma likeMatch_pct_pct (q : List Char) (h : noLikeMeta q = true)
    (s : List Char) :
    likeMatch ('%' :: (q ++ ['%'])) s = containsSub q s := by
  rw [likeMatch_pct]
  exact any_congr _ _ _ (fun t _ => likeMatch_append_pct q h t)

/-! ### Creation (C1, C4, C5) -/

/-- The materialized path stored for the comment a successful
`Service.CreateComment` run appends (the last row of the resulting table);
`none` when creation failed. -/
def createdRowPath (db : DB) (cr : CommentRequest) (pathID : String)
    (now : Int) : Option String :=
  match Service.CreateComment db cr pathID now with
  | .error _ => none
  | .ok (db', _) => db'.rows.getLast?.map (·.path)

/-- C1: the stored materialized path of a created comment equals the parent's
path concatenated with the freshly generated path id and the separator `/`;
with no parent id it is the path id followed by `/`. -/
theorem claim_C1_create_materialized_path (db : DB) (cr : CommentRequest)
    (pathID : String) (now : Int) :
    (cr.parentID = none →
      createdRowPath db cr pathID now = some (pathID ++ "/")) ∧
    (∀ pid pp, cr.parentID = some pid →
      Repository.GetPathByID db.rows pid = some pp →
      createdRowPath db cr pathID now = some (pp ++ pathID ++ "/")) := by
  constructor
  · intro hnone
    simp [createdRowPath, Service.CreateComment, Repository.Create, hnone,
      List.getLast?_concat]
  · intro pid pp hsome hpp
    simp [createdRowPath, Service.CreateComment, Repository.Create, hsome,
      hpp, List.getLast?_concat]

/-- The database of the spec's worked example after the root (`path_id` A,
path `A/`) and its child (`path_id` B, path `A/B/`) have been stored. -/
def exampleDB : DB :=
  { rows :=
      [{ id := 1, parentID := none, pathID := "A", path := "A/",
         comm := "root", createdAt := 0, children := none },
       { id := 2, parentID := some 1, pathID := "B", path := "A/B/",
         comm := "child", createdAt := 1, children := none }],
    nextId := 3 }

/-- Witness for C1: creating the grandchild with fresh path id `C` under
parent 2 (path `A/B/`) stores path `A/B/C/`, and a root with fresh path id
`A` stores path `A/`. -/
theorem claim_C1_witness :
    createdRowPath exampleDB ⟨"grandchild", some 2⟩ "C" 2 = some "A/B/C/" ∧
    createdRowPath ⟨[], 1⟩ ⟨"root", none⟩ "A" 0 = some "A/" := by
  constructor
  · exact (claim_C1_create_materialized_path exampleDB ⟨"grandchild", some 2⟩
      "C" 2).2 2 "A/B/" rfl (by decide)
  · exact (claim_C1_create_materialized_path ⟨[], 1⟩ ⟨"root", none⟩
      "A" 0).1 rfl

/-- C5: a create request whose parent id resolves to no stored comment fails
with the parent-not-found error; no `.ok` result (and hence no modified
table) is ever produced for it. -/
theorem claim_C5_parent_not_found_no_write (db : DB) (cr : CommentRequest)
    (pathID : String) (now : Int) (pid : Int)
    (h1 : cr.parentID = some pid)
    (h2 : Repository.GetPathByID db.rows pid = none) :
    Service.CreateComment db cr pathID now =
      .error (.parentNotFound pid) := by
  simp [Service.CreateComment, Repository.Create, h1, h2]

/-- Witness for C5: creating under the absent parent id 7 in the example
database fails with `parentNotFound 7`. -/
theorem claim_C5_witness :
    Service.CreateComment exampleDB ⟨"orphan", some 7⟩ "D" 3 =
      .error (.parentNotFound 7) :=
  claim_C5_parent_not_found_no_write exampleDB ⟨"orphan", some 7⟩ "D" 3 7
    rfl (by decide)

/-- C4 (code bug): on a request with a negative parent id, the handler writes
the 400 validation response but, missing a `return`, still calls
`service.CreateComment` — so the storage layer is reached (and a second
response is written) despite the validation failure. -/
theorem claim_C4_negative_parent_reaches_storage :
    (Handlers.CreateComment ⟨[], 1⟩ (some ⟨"hi", some (-1)⟩) "A" 0).responses =
      [⟨400, "ParentID it can't be negative"⟩,
       ⟨400, "Failed to create comment"⟩] ∧
    (Handlers.CreateComment ⟨[], 1⟩ (some ⟨"hi", some (-1)⟩) "A" 0).serviceCalled
      = true := by
  decide

/-! ### Deletion (C2) -/

lemma likeMatchS_pct {p : String} (h : noLikeMeta p.data = true)
    (s : String) :
    likeMatchS (p ++ "%") s = p.data.isPrefixOf s.data := by
  unfold likeMatchS
  rw [String.data_append]
  exact likeMatch_append_pct p.data h s.data

/-- C2: deleting comment `R` first reads the root record and fails with the
not-found error when absent; otherwise the single prefix delete leaves
exactly those rows whose path does not extend `R`'s path — every comment
whose path has `path(R)` as a prefix (including `R` itself) is gone, and no
other comment is touched. `R`'s path is assumed free of `LIKE`
metacharacters, as every stored path (UUID segments and `/`) is. -/
theorem claim_C2_delete_semantics (db : DB) (id : Int) :
    (Repository.GetByID db.rows id = none →
      Service.DeleteComments db id = .error .notFound) ∧
    (∀ root, Repository.GetByID db.rows id = some root →
      noLikeMeta root.path.data = true →
      ∃ db', Service.DeleteComments db id = .ok db' ∧
        (∀ c, c ∈ db'.rows ↔
          c ∈ db.rows ∧ root.path.data.isPrefixOf c.path.data = false) ∧
        root ∉ db'.rows) := by
  constructor
  · intro hnone
    simp [Service.DeleteComments, hnone]
  · intro root hsome hmeta
    refine ⟨{ db with rows := Repository.DeleteByPath db.rows root.path },
      by simp [Service.DeleteComments, hsome], ?_, ?_⟩
    · intro c
      simp only [Service.DeleteComments, Repository.DeleteByPath,
        List.mem_filter, likeMatchS_pct hmeta, Bool.not_eq_true',
        and_congr_right_iff]
    · intro hmem
      have := (List.mem_filter.mp hmem).2
      rw [likeMatchS_pct hmeta, isPrefixOf_self] at this
      simp at this

/-- Witness for C2: deleting comment 1 of the example database removes rows
`A/` and `A/B/` (both extend `A/`), i.e. empties the table; deleting the
absent id 9 fails with the not-found error. -/
theorem claim_C2_witness :
    (∃ db', Service.DeleteComments exampleDB 1 = .ok db' ∧
      db'.rows = []) ∧
    Service.DeleteComments exampleDB 9 = .error .notFound := by
  constructor
  · obtain ⟨db', hok, hmem, -⟩ :=
      (claim_C2_delete_semantics exampleDB 1).2
        { id := 1, parentID := none, pathID := "A", path := "A/",
          comm := "root", createdAt := 0, children := none }
        (by decide) (by decide)
    refine ⟨db', hok, ?_⟩
    have h2 : ∀ c, c ∉ db'.rows := by
      intro c hc
      obtain ⟨hcmem, hpref⟩ := (hmem c).mp hc
      simp only [exampleDB, List.mem_cons, List.not_mem_nil, or_false]
        at hcmem
      rcases hcmem with h | h <;> subst h <;> exact absurd hpref (by decide)
    cases hrows : db'.rows with
    | nil => rfl
    | cons a l => exact absurd (hrows ▸ List.mem_cons_self a l) (h2 a)
  · exact (claim_C2_delete_semantics exampleDB 9).1 (by decide)

/-! ### Tree assembly (C3, C7) -/

/-- The claim's degenerate-fallback root: fetched by `GetByID`, so its
transient children slice is Go's nil slice. -/
def rootC3 : Comment :=
  { id := 1, parentID := none, pathID := "A", path := "A/", comm := "r",
    createdAt := 0, children := none }

/-- A flat record set of two records, neither carrying the requested id 1. -/
def listC3 : List Comment :=
  [{ id := 2, parentID := some 1, pathID := "B", path := "A/B/", comm := "x",
     createdAt := 1, children := none },
   { id := 3, parentID := some 1, pathID := "C", path := "A/C/", comm := "y",
     createdAt := 2, children := none }]

/-- Counterexample to C3 as stated: with a flat set of two records none of
which has the requested id, assembly returns the originally fetched root
record unchanged — its children slice is still nil (absent), not the claimed
empty collection. -/
theorem claim_C3_counterexample :
    (∀ c ∈ listC3, c.id ≠ 1) ∧
    2 ≤ listC3.length ∧
    (Service.assemble 1 rootC3 listC3).children ≠ some [] := by
  decide

/-- C3 amended: when the flat set has at most one record, assembly returns
the fetched root with an explicitly empty children collection; when it has
two or more records and the requested id is absent from the id-to-record
mapping, assembly returns the originally fetched root record unchanged, its
children collection left as fetched (nil/absent). -/
theorem claim_C3_fallback (id : Int) (root : Comment) (l : List Comment) :
    (l.length ≤ 1 →
      Service.assemble id root l = { root with children := some [] }) ∧
    (2 ≤ l.length → (∀ c ∈ l, c.id ≠ id) →
      Service.assemble id root l = root) := by
  constructor
  · intro h
    simp [Service.assemble, h]
  · intro h hid
    have hfind : l.find? (fun c => c.id == id) = none := by
      rw [List.find?_eq_none]
      intro c hc
      simpa using hid c hc
    simp [Service.assemble, hfind]
    omega

/-- Witness for C3 amended: the counterexample instance for the second
branch, and a singleton flat set for the first. -/
theorem claim_C3_witness :
    Service.assemble 1 rootC3 listC3 = rootC3 ∧
    Service.assemble 1 rootC3 [rootC3] =
      { rootC3 with children := some [] } := by
  constructor
  · exact (claim_C3_fallback 1 rootC3 listC3).2 (by decide) (by decide)
  · exact (claim_C3_fallback 1 rootC3 [rootC3]).1 (by decide)

/-- A comment record with its transient children slice reset: what the
persistent fields of an assembled node are, independent of assembly. -/
def stripChildren (c : Comment) : Comment :=
  { c with children := none }

lemma find?_eq_of_perm_of_nodup (id : Int) {l l' : List Comment}
    (hperm : l.Perm l') (hnodup : (l.map (·.id)).Nodup) :
    l.find? (fun c => c.id == id) = l'.find? (fun c => c.id == id) := by
  cases h1 : l.find? (fun c => c.id == id) with
  | none =>
    rw [List.find?_eq_none] at h1
    symm
    rw [List.find?_eq_none]
    intro c hc
    exact h1 c (hperm.mem_iff.mpr hc)
  | some c =>
    have hcl : c ∈ l := List.mem_of_find?_eq_some h1
    have hcp : c.id = id := by simpa using List.find?_some h1
    cases h2 : l'.find? (fun c => c.id == id) with
    | none =>
      rw [List.find?_eq_none] at h2
      exact absurd (by simpa using hcp)
        (h2 c (hperm.mem_iff.mp hcl))
    | some d =>
      have hdl : d ∈ l := hperm.mem_iff.mpr (List.mem_of_find?_eq_some h2)
      have hdp : d.id = id := by simpa using List.find?_some h2
      have : c = d :=
        List.inj_on_of_nodup_map hnodup hcl hdl (hcp.trans hdp.symm)
      rw [this]

/-- C7: tree assembly applied to any permutation of a flat record set (with
the primary-key-unique ids the table guarantees) yields an isomorphic tree:
the returned node's persistent fields coincide, the children attached to any
parent id are the same up to sibling order, and the returned node's own
children collection is the same up to sibling order. -/
theorem claim_C7_assembly_perm_invariant (id : Int) (root : Comment)
    (l l' : List Comment) (hperm : l.Perm l')
    (hnodup : (l.map (·.id)).Nodup) :
    stripChildren (Service.assemble id root l) =
      stripChildren (Service.assemble id root l') ∧
    (∀ p : Int,
      (Service.buildChildren l p).Perm (Service.buildChildren l' p)) ∧
    ((Service.assemble id root l).children.getD []).Perm
      ((Service.assemble id root l').children.getD []) := by
  have hlen : l.length = l'.length := hperm.length_eq
  have hchild : ∀ p : Int,
      (Service.buildChildren l p).Perm (Service.buildChildren l' p) :=
    fun p => ((hperm.filter _).map _)
  have hfind := find?_eq_of_perm_of_nodup id hperm hnodup
  refine ⟨?_, hchild, ?_⟩
  · unfold Service.assemble
    rw [hlen, hfind]
    split
    · rfl
    · cases l'.find? (fun c => c.id == id) <;> rfl
  · unfold Service.assemble
    rw [hlen, hfind]
    split
    · exact List.Perm.refl _
    · cases l'.find? (fun c => c.id == id) with
      | none => exact List.Perm.refl _
      | some c => simpa using hchild c.id

/-- Witness for C7: a three-record subtree and its reversal assemble to the
same root with the same children up to order. -/
theorem claim_C7_witness :
    stripChildren (Service.assemble 1 rootC3 (rootC3 :: listC3)) =
      stripChildren (Service.assemble 1 rootC3 (rootC3 :: listC3).reverse) ∧
    ((Service.assemble 1 rootC3 (rootC3 :: listC3)).children.getD []).Perm
      ((Service.assemble 1 rootC3
        (rootC3 :: listC3).reverse).children.getD []) := by
  obtain ⟨h1, -, h3⟩ :=
    claim_C7_assembly_perm_invariant 1 rootC3 (rootC3 :: listC3)
      (rootC3 :: listC3).reverse (List.reverse_perm _).symm (by decide)
  exact ⟨h1, h3⟩

/-! ### Pagination (C8) -/

lemma getComments_ok_of_mem {rows : List Comment} {c : Comment}
    (h : c ∈ rows) : ∃ t, Service.GetComments rows c.id = .ok t := by
  have : (rows.find? (fun x => x.id == c.id)).isSome :=
    List.find?_isSome.mpr ⟨c, h, by simp⟩
  cases hf : rows.find? (fun x => x.id == c.id) with
  | none => rw [hf] at this; simp at this
  | some root =>
    exact ⟨Service.assemble c.id root
        (Repository.GetChildrenByPath rows root.path),
      by simp [Service.GetComments, Repository.GetByID, hf]⟩

lemma trees_foldl_length (rows : List Comment) :
    ∀ (tops : List Comment), (∀ c ∈ tops, c ∈ rows) →
    ∀ (init : List Comment),
      (tops.foldl
        (fun acc rootComment =>
          match Service.GetComments rows rootComment.id with
          | .error _ => acc
          | .ok fullTree => acc ++ [fullTree]) init).length =
      init.length + tops.length := by
  intro tops
  induction tops with
  | nil => intro _ init; simp
  | cons c tops ih =>
    intro h init
    obtain ⟨t, ht⟩ := getComments_ok_of_mem (h c (List.mem_cons_self c tops))
    rw [List.foldl_cons, ht, ih (fun x hx => h x (List.mem_cons_of_mem c hx))]
    simp
    omega

/-- Twenty-five top-level comments (each its own singleton subtree), the flat table of
the spec's pagination example. -/
def db25 : List Comment :=
  (List.range 25).map (fun i =>
    { id := (i : Int) + 1, parentID := none,
      pathID := "p" ++ toString (i + 1),
      path := "p" ++ toString (i + 1) ++ "/",
      comm := "c" ++ toString (i + 1),
      createdAt := (i : Int), children := none })

/-- C8: `GetAllCommentTrees` clamps the page to at least 1, replaces a limit
outside `[1, 100]` by 10, computes the offset as `(page-1)*limit`, and
returns the fetched page together with the count of top-level comments and
the clamped page and limit; on 25 top-level comments, page 1 with limit 10
yields 10 trees and total 25, page 3 yields 5 trees. -/
theorem claim_C8_pagination (rows : List Comment) (page limit : Int)
    (sortBy sortOrder : String) :
    (Service.GetAllCommentTrees rows page limit sortBy sortOrder).page =
      (if page < 1 then 1 else page) ∧
    (Service.GetAllCommentTrees rows page limit sortBy sortOrder).limit =
      (if limit < 1 || limit > 100 then 10 else limit) ∧
    (Service.GetAllCommentTrees rows page limit sortBy sortOrder).total =
      ((rows.filter (fun c => c.parentID == none)).length : Int) ∧
    (Service.GetAllCommentTrees rows page limit sortBy sortOrder).comments.length =
      min (if limit < 1 || limit > 100 then 10 else limit).toNat
        ((rows.filter (fun c => c.parentID == none)).length -
          (((if page < 1 then 1 else page) - 1) *
            (if limit < 1 || limit > 100 then 10 else limit)).toNat) ∧
    (Service.GetAllCommentTrees db25 1 10 "created_at" "asc").comments.length
      = 10 ∧
    (Service.GetAllCommentTrees db25 1 10 "created_at" "asc").total = 25 ∧
    (Service.GetAllCommentTrees db25 3 10 "created_at" "asc").comments.length
      = 5 := by
  refine ⟨rfl, rfl, rfl, ?_, by decide, by decide, by decide⟩
  unfold Service.GetAllCommentTrees Repository.GetTopLevelComments
  simp only
  rw [trees_foldl_length]
  · rw [List.length_take, List.length_drop,
      (List.perm_insertionSort _ _).length_eq]
    simp
  · intro c hc
    have hc1 := List.take_subset _ _ hc
    have hc2 := List.drop_subset _ _ hc1
    rw [List.mem_insertionSort] at hc2
    exact List.mem_filter.mp hc2 |>.1

/-! ### ORDER BY sanitization (C9) -/

/-- C9: only whitelisted values reach the interpolated ORDER BY clause —
the column is exactly `created_at` or `id` (any other input defaults to
`created_at`), the direction is exactly `ASC` or `DESC` after upper-casing
(anything else defaults to `ASC`), and the built query text is the fixed
template around those two values. -/
theorem claim_C9_orderby_whitelist (sortBy sortOrder : String) :
    ((Repository.sanitizeSortBy sortBy = "created_at" ∨
      Repository.sanitizeSortBy sortBy = "id") ∧
     (sortBy ≠ "created_at" → sortBy ≠ "id" →
      Repository.sanitizeSortBy sortBy = "created_at")) ∧
    ((Repository.sanitizeSortOrder sortOrder = "ASC" ∨
      Repository.sanitizeSortOrder sortOrder = "DESC") ∧
     (toUpperStr sortOrder ≠ "ASC" → toUpperStr sortOrder ≠ "DESC" →
      Repository.sanitizeSortOrder sortOrder = "ASC")) ∧
    (∃ sb so, (sb = "created_at" ∨ sb = "id") ∧ (so = "ASC" ∨ so = "DESC") ∧
      Repository.topLevelQueryString sortBy sortOrder =
        "SELECT id,parent_id,path_id,path,comment,created_at FROM comments WHERE parent_id IS NULL ORDER BY "
          ++ sb ++ " " ++ so ++ " LIMIT $1 OFFSET $2") := by
  have hby : Repository.sanitizeSortBy sortBy = "created_at" ∨
      Repository.sanitizeSortBy sortBy = "id" := by
    unfold Repository.sanitizeSortBy
    split
    · rename_i h
      rcases Bool.or_eq_true _ _ |>.mp h with h' | h'
      · exact Or.inl (by simpa using h')
      · exact Or.inr (by simpa using h')
    · exact Or.inl rfl
  have hord : Repository.sanitizeSortOrder sortOrder = "ASC" ∨
      Repository.sanitizeSortOrder sortOrder = "DESC" := by
    unfold Repository.sanitizeSortOrder
    simp only
    split
    · exact Or.inl rfl
    · rename_i h
      by_cases hA : toUpperStr sortOrder = "ASC"
      · exact Or.inl hA
      · refine Or.inr ?_
        by_cases hD : toUpperStr sortOrder = "DESC"
        · exact hD
        · exact absurd (by simp [hA, hD]) h
  refine ⟨⟨hby, ?_⟩, ⟨hord, ?_⟩,
    ⟨Repository.sanitizeSortBy sortBy, Repository.sanitizeSortOrder sortOrder,
      hby, hord, rfl⟩⟩
  · intro h1 h2
    unfold Repository.sanitizeSortBy
    rw [if_neg]
    simp [h1, h2]
  · intro h1 h2
    unfold Repository.sanitizeSortOrder
    rw [if_pos]
    simp [h1, h2]

/-- Witness for C9: an arbitrary non-whitelisted column and direction both
fall back to the defaults. -/
theorem claim_C9_witness :
    Repository.sanitizeSortBy "path; DROP TABLE comments" = "created_at" ∧
    Repository.sanitizeSortOrder "sideways" = "ASC" :=
  ⟨(claim_C9_orderby_whitelist "path; DROP TABLE comments" "sideways").1.2
      (by decide) (by decide),
   (claim_C9_orderby_whitelist "path; DROP TABLE comments" "sideways").2.1.2
      (by decide) (by decide)⟩

/-! ### Text search (C6, C10) -/

lemma toNat_ofNat_small (m : Nat) (h : m < 55296) :
    (Char.ofNat m).toNat = m := by
  unfold Char.ofNat
  rw [dif_pos (Or.inl (by omega) : m.isValidChar)]
  simp [Char.ofNatAux, Char.toNat, UInt32.toNat, BitVec.toNat_ofNatLt]

lemma toLower_ne_meta (c : Char) :
    (c ≠ '%' → Char.toLower c ≠ '%') ∧ (c ≠ '_' → Char.toLower c ≠ '_') := by
  unfold Char.toLower
  simp only
  split
  · rename_i h
    have h97 : (Char.ofNat (c.toNat + 32)).toNat = c.toNat + 32 :=
      toNat_ofNat_small _ (by omega)
    constructor <;> intro _ hc <;>
      (have hc' := congrArg Char.toNat hc; rw [h97] at hc')
    · have hp : ('%').toNat = 37 := rfl
      rw [hp] at hc'
      omega
    · have hu : ('_').toNat = 95 := rfl
      rw [hu] at hc'
      omega
  · exact ⟨fun h => h, fun h => h⟩

lemma noLikeMeta_map_toLower {l : List Char} (h : noLikeMeta l = true) :
    noLikeMeta (l.map Char.toLower) = true := by
  induction l with
  | nil => rfl
  | cons a l ih =>
    obtain ⟨h1, h2, h3⟩ := noLikeMeta_cons h
    have := toLower_ne_meta a
    simp only [List.map_cons, noLikeMeta, List.all_cons, Bool.and_eq_true,
      Bool.not_eq_true', Bool.or_eq_false_iff, beq_eq_false_iff_ne]
    exact ⟨⟨this.1 h1, this.2 h2⟩, by simpa [noLikeMeta] using ih h3⟩

/-- Lower-cased decomposition of the `'%' || query || '%'` search pattern. -/
lemma searchPattern_data (q : String) :
    ("%" ++ q ++ "%").data.map Char.toLower =
      '%' :: (q.data.map Char.toLower ++ ['%']) := by
  rw [String.data_append, String.data_append]
  have hp : ("%" : String).data = ['%'] := rfl
  rw [hp, List.map_append, List.map_append]
  rfl

/-- For a metacharacter-free query the `ILIKE '%' || q || '%'` predicate is
exactly case-insensitive literal substring containment. -/
lemma ilikeMatch_eq_ciContains (q s : String)
    (h : noLikeMeta q.data = true) :
    ilikeMatch ("%" ++ q ++ "%") s = ciContainsB s q := by
  unfold ilikeMatch ciContainsB
  rw [searchPattern_data]
  exact likeMatch_pct_pct _ (noLikeMeta_map_toLower h) _

/-- The comment record of C6's counterexample: its text contains the four
byte query `" ab "` literally. -/
def rowAb : Comment :=
  { id := 1, parentID := none, pathID := "A", path := "A/",
    comm := "x ab x", createdAt := 0, children := none }

/-- Counterexample to C6 as stated: the query `" ab "` is 4 bytes long (not
shorter than 3 characters) and occurs literally in the stored comment text,
yet `SearchComments` returns the empty result, because the length check runs
on the whitespace-trimmed query (`"ab"`, 2 bytes). -/
theorem claim_C6_counterexample :
    byteLen " ab " = 4 ∧
    ciContainsB rowAb.comm " ab " = true ∧
    Service.SearchComments [rowAb] " ab " = [] := by
  decide

/-- C6 amended: queries whose whitespace-trimmed length is below 3 yield an
empty result (no error); otherwise the result holds at most 50 comments, each
a stored comment matching the case-insensitive pattern `'%'||query||'%'`,
ordered newest-first; every matching comment is returned when at most 50
match; and for queries free of `LIKE` metacharacters matching is exactly
case-insensitive literal substring containment. -/
theorem claim_C6_search (rows : List Comment) (q : String) :
    (byteLen (trimSpace q) < 3 → Service.SearchComments rows q = []) ∧
    (3 ≤ byteLen (trimSpace q) →
      (Service.SearchComments rows q).length ≤ 50 ∧
      (∀ c ∈ Service.SearchComments rows q,
        c ∈ rows ∧ ilikeMatch ("%" ++ q ++ "%") c.comm = true) ∧
      List.Sorted createdDesc (Service.SearchComments rows q) ∧
      ((rows.filter
          (fun c => ilikeMatch ("%" ++ q ++ "%") c.comm)).length ≤ 50 →
        ∀ c ∈ rows, ilikeMatch ("%" ++ q ++ "%") c.comm = true →
          c ∈ Service.SearchComments rows q) ∧
      (noLikeMeta q.data = true → ∀ c ∈ Service.SearchComments rows q,
        ciContainsB c.comm q = true)) := by
  constructor
  · intro h
    simp [Service.SearchComments, h]
  · intro h
    have hsvc : Service.SearchComments rows q =
        ((rows.filter (fun c => ilikeMatch ("%" ++ q ++ "%") c.comm)).insertionSort
          createdDesc).take 50 := by
      simp [Service.SearchComments, Repository.SearchByText, Nat.not_lt.mpr h]
    have hmem : ∀ c ∈ Service.SearchComments rows q,
        c ∈ rows ∧ ilikeMatch ("%" ++ q ++ "%") c.comm = true := by
      intro c hc
      rw [hsvc] at hc
      have := List.take_subset _ _ hc
      rw [List.mem_insertionSort] at this
      exact List.mem_filter.mp this
    refine ⟨?_, hmem, ?_, ?_, ?_⟩
    · rw [hsvc, List.length_take]
      exact Nat.min_le_left _ _
    · rw [hsvc]
      exact (List.sorted_insertionSort createdDesc _).sublist
        (List.take_sublist _ _)
    · intro hlen c hcrows hcmatch
      rw [hsvc, List.take_of_length_le
        (by rwa [(List.perm_insertionSort createdDesc _).length_eq]),
        List.mem_insertionSort]
      exact List.mem_filter.mpr ⟨hcrows, hcmatch⟩
    · intro hq c hc
      have := (hmem c hc).2
      rwa [ilikeMatch_eq_ciContains _ _ hq] at this

/-- Witness for C6 amended: a three-byte query returns the stored match (its
own text), newest-first and within the cap, and a two-byte query returns the
empty result. -/
theorem claim_C6_witness :
    Service.SearchComments [rowAb] "ab" = [] ∧
    rowAb ∈ Service.SearchComments [rowAb] " ab x" := by
  constructor
  · exact (claim_C6_search [rowAb] "ab").1 (by decide)
  · exact ((claim_C6_search [rowAb] " ab x").2 (by decide)).2.2.2.1
      (by decide) rowAb (by decide) (by decide)

/-- The row C10 retrieves through a `%` wildcard without containing the
query literally. -/
def rowAbz : Comment :=
  { id := 1, parentID := none, pathID := "A", path := "A/",
    comm := "abz", createdAt := 0, children := none }

/-- The row C10 retrieves through a `_` wildcard without containing the
query literally. -/
def rowAbc : Comment :=
  { id := 2, parentID := none, pathID := "B", path := "B/",
    comm := "abc", createdAt := 0, children := none }

/-- C10: `SearchByText` builds its pattern by plain concatenation, so every
returned comment matches `'%'||query||'%'` as an SQL pattern, and for queries
containing `%` or `_` those characters act as wildcards: `"a%z"` retrieves
the comment `"abz"` and `"a_c"` retrieves `"abc"`, although neither query is
a literal (even case-insensitive) substring of the retrieved text. -/
theorem claim_C10_unescaped_pattern :
    (∀ rows q c, c ∈ Repository.SearchByText rows q →
      ilikeMatch ("%" ++ q ++ "%") c.comm = true) ∧
    Repository.SearchByText [rowAbz] "a%z" = [rowAbz] ∧
    ciContainsB rowAbz.comm "a%z" = false ∧
    Repository.SearchByText [rowAbc] "a_c" = [rowAbc] ∧
    ciContainsB rowAbc.comm "a_c" = false := by
  refine ⟨?_, by decide, by decide, by decide, by decide⟩
  intro rows q c hc
  unfold Repository.SearchByText at hc
  have := List.take_subset _ _ hc
  rw [List.mem_insertionSort] at this
  exact (List.mem_filter.mp this).2

/-- Witness for C10's universally quantified part at a concrete instance. -/
theorem claim_C10_witness :
    ilikeMatch ("%" ++ "a%z" ++ "%") rowAbz.comm = true :=
  claim_C10_unescaped_pattern.1 [rowAbz] "a%z" rowAbz (by decide)

end CommentTree
